import Mathlib

/-!
Verification development for the `find` repository (natural-language file
search).  The definitions below are a shallow embedding of the Python source:

* `src/nl_find/core/executor.py`  — `SearchExecutor` (current executor)
* `src/nl_find/core/backends.py`  — the backend drivers and `select_backend`
* `src/src/core/executor.py`      — the legacy executor (near-duplicate)
* `src/src/core/models.py`        — the data model

Paths are represented by their components relative to the search root
(`List String`); a directory tree is a finite enumeration of `FSEntry`
records in traversal (`rglob`) order.  File metadata reads (`Path.stat`,
`Path.is_dir`) are modelled by a single lookup into that enumeration: a
path absent from the tree behaves like a path whose `stat()` raises
`OSError`, which every filter in the source catches and turns into a
rejection.  Timestamps are integers; wall-clock time is threaded through
as an explicit parameter.  String operations are defined structurally on
character lists so that all definitions evaluate by kernel reduction;
`Char.toLower` (ASCII case folding) stands in for Python's `str.lower`.
-/

/-- Lowercase a character list, modelling Python `str.lower()` (ASCII range). -/
def lowerL (l : List Char) : List Char := l.map Char.toLower

/-- Lexicographic `≤` on character lists by code point, modelling Python
string comparison as used by `sorted(key=...)`. -/
def lexLe : List Char → List Char → Bool
  | [], _ => true
  | _ :: _, [] => false
  | a :: as, b :: bs => if a < b then true else if b < a then false else lexLe as bs

/-- Does the needle occur at the head of the haystack? -/
def headMatch : List Char → List Char → Bool
  | _, [] => true
  | [], _ :: _ => false
  | h :: hs, n :: ns => h = n && headMatch hs ns

/-- Substring containment, modelling Python's `needle in hay`. -/
def containsSub (hay needle : List Char) : Bool :=
  match hay with
  | [] => needle.isEmpty
  | _ :: t => headMatch hay needle || containsSub t needle

/-- Split a character list on newline characters, modelling Python
`str.split("\n")` (an empty input yields one empty field). -/
def splitNl : List Char → List (List Char)
  | [] => [[]]
  | c :: rest =>
    let r := splitNl rest
    if c = '\n' then [] :: r
    else
      match r with
      | [] => [[c]]
      | g :: gs => (c :: g) :: gs

/-- Strip leading and trailing whitespace, modelling Python `str.strip()`. -/
def pyStrip (l : List Char) : List Char :=
  ((l.dropWhile Char.isWhitespace).reverse.dropWhile Char.isWhitespace).reverse

/-- Index of the last occurrence of a dot, modelling `str.rfind(".")`. -/
def lastDotIdx : List Char → Option Nat
  | [] => none
  | c :: rest =>
    match lastDotIdx rest with
    | some i => some (i + 1)
    | none => if c = '.' then some 0 else none

/-- Model of `pathlib.PurePath.suffix` computed on the base name: the part of
the name from the last dot on, unless the dot is the first or the last
character (so `".hidden"` and `"file."` have an empty suffix). -/
def pySuffix (name : List Char) : List Char :=
  match lastDotIdx name with
  | some i => if 0 < i ∧ i + 1 < name.length then name.drop i else []
  | none => []

/-- Whether a string begins with a dot (`name.startswith(".")`). -/
def startsWithDot (s : String) : Bool :=
  match s.data with
  | [] => false
  | c :: _ => c = '.'

/-- Python truthiness of an optional string: `None` and `""` are falsy. -/
def optStrTruthy : Option String → Bool
  | none => false
  | some s => !s.data.isEmpty

/-- Fuel-driven glob matcher.  Models `fnmatch.fnmatch` on POSIX for patterns
built from literals, `*` and `?` (character classes are not used by this
repository's queries and are treated as literals). -/
def globMatchAux : Nat → List Char → List Char → Bool
  | 0, _, _ => false
  | _ + 1, [], [] => true
  | _ + 1, [], _ :: _ => false
  | f + 1, '*' :: ps, [] => globMatchAux f ps []
  | f + 1, '*' :: ps, c :: cs => globMatchAux f ps (c :: cs) || globMatchAux f ('*' :: ps) cs
  | f + 1, '?' :: ps, _ :: cs => globMatchAux f ps cs
  | _ + 1, '?' :: _, [] => false
  | f + 1, a :: ps, c :: cs => a = c && globMatchAux f ps cs
  | _ + 1, _ :: _, [] => false

/-- Glob match with sufficient fuel (each step consumes at least one symbol). -/
def globMatch (p s : List Char) : Bool :=
  globMatchAux (p.length + s.length + 1) p s

/-- Sort field, from `SortField` in `src/src/core/models.py`. -/
inductive SortField where
  | name
  | size
  | modified
  | created
deriving DecidableEq

/-- Sort order, from `SortOrder` in `src/src/core/models.py`. -/
inductive SortOrder where
  | asc
  | desc
deriving DecidableEq

/-- One filesystem object as seen by a traversal: its path components
relative to the search root, whether it is a directory, and the metadata
returned by `stat()` plus its decoded text content. -/
structure FSEntry where
  parts : List String
  isDir : Bool
  size : Nat
  mtime : Int
  ctime : Int
  content : String
deriving DecidableEq

/-- The directory tree a search runs against.  `pathExists` / `pathIsDir`
model `query.path.exists()` and `query.path.is_dir()`; `entries` is the
tree's enumeration in discovery (`rglob`) order; `root` is the resolved
absolute path of the search root. -/
structure FileSystem where
  root : List String
  pathExists : Bool
  pathIsDir : Bool
  entries : List FSEntry
deriving DecidableEq

/-- `SearchQuery` from `src/src/core/models.py` (the base directory is
represented by the `FileSystem` the query is executed against). -/
structure SearchQuery where
  pattern : Option String
  extensions : List String
  min_size : Option Nat
  max_size : Option Nat
  modified_after : Option Int
  modified_before : Option Int
  content_pattern : Option String
  include_hidden : Bool
  recursive : Bool
deriving DecidableEq

/-- `SearchParams` from `src/src/core/models.py`. -/
structure SearchParams where
  query : SearchQuery
  sort_by : SortField
  sort_order : SortOrder
  limit : Int
deriving DecidableEq

/-- `FileInfo` from `src/src/core/models.py`. -/
structure FileInfo where
  path : List String
  name : String
  extension : String
  size : Nat
  created : Int
  modified : Int
  is_dir : Bool
deriving DecidableEq

/-- `SearchResult` from `src/src/core/models.py`. -/
structure SearchResult where
  query : SearchQuery
  files : List FileInfo
  total_count : Nat
  search_time : Int
deriving DecidableEq

/-- The `InvalidPathError` raised by `SearchExecutor.execute`, with its two
messages (`does not exist` / `is not a directory`). -/
inductive PathError where
  | notExists
  | notDir
deriving DecidableEq

/-- Base name of a path (`Path.name`): the last component. -/
def pathName (p : List String) : String := p.getLastD ""

/-- Base name of an entry. -/
def entryName (e : FSEntry) : String := pathName e.parts

/-- Model of `Path.stat` / `Path.is_dir`: find the entry with the given
path components.  `none` plays the role of `OSError` from `stat()`. -/
def lookup (fs : FileSystem) (p : List String) : Option FSEntry :=
  fs.entries.find? (fun e => e.parts == p)

/-- `FileInfo.from_path` (src/src/core/models.py:101-120): resolve the path,
record name, suffix, size and the two timestamps. -/
def infoOfEntry (root : List String) (e : FSEntry) : FileInfo :=
  ⟨root ++ e.parts, entryName e, ⟨pySuffix (entryName e).data⟩,
    e.size, e.ctime, e.mtime, e.isDir⟩

/-- Model of `SearchExecutor._content_matches`
(src/nl_find/core/executor.py:153-168): case-insensitive substring search in
the decoded file content (read errors there yield `False`; in the model the
content of an existing entry is always readable). -/
def contentMatches (e : FSEntry) (pat : String) : Bool :=
  containsSub (lowerL e.content.data) (lowerL pat.data)

/-- The universal filter `SearchExecutor._post_filter`
(src/nl_find/core/executor.py:92-151), applied to an entry the candidate path
resolved to: reject directories; reject dotfiles unless `include_hidden`;
reject a non-matching glob pattern; reject a non-matching extension
(case-insensitive comparison of the suffix against the lowercased extension
list); reject size and modification-time bound violations; finally the
content-pattern check. -/
def post_filter_entry (e : FSEntry) (q : SearchQuery) : Bool :=
  if e.isDir then false
  else if !q.include_hidden && startsWithDot (entryName e) then false
  else if optStrTruthy q.pattern && !globMatch (q.pattern.getD "").data (entryName e).data then false
  else if !q.extensions.isEmpty &&
      !((q.extensions.map (fun ext => lowerL ext.data)).contains (lowerL (pySuffix (entryName e).data))) then false
  else if (match q.min_size with | some m => decide (e.size < m) | none => false) then false
  else if (match q.max_size with | some m => decide (m < e.size) | none => false) then false
  else if (match q.modified_after with | some ts => decide (e.mtime < ts) | none => false) then false
  else if (match q.modified_before with | some ts => decide (ts < e.mtime) | none => false) then false
  else if optStrTruthy q.content_pattern && !contentMatches e (q.content_pattern.getD "") then false
  else true

/-- `SearchExecutor._post_filter` on a raw candidate path.  A path that is
not in the tree is rejected: `is_dir()` on it is `False` and the `stat()`
inside the filter's `try` block raises `OSError`, which returns `False`. -/
def post_filter (fs : FileSystem) (p : List String) (q : SearchQuery) : Bool :=
  match lookup fs p with
  | none => false
  | some e => post_filter_entry e q

/-- `PythonBackend._matches_query` (src/nl_find/core/backends.py:81-123):
identical to the universal filter except that it performs no
content-pattern check. -/
def python_matches_query (e : FSEntry) (q : SearchQuery) : Bool :=
  if e.isDir then false
  else if !q.include_hidden && startsWithDot (entryName e) then false
  else if optStrTruthy q.pattern && !globMatch (q.pattern.getD "").data (entryName e).data then false
  else if !q.extensions.isEmpty &&
      !((q.extensions.map (fun ext => lowerL ext.data)).contains (lowerL (pySuffix (entryName e).data))) then false
  else if (match q.min_size with | some m => decide (e.size < m) | none => false) then false
  else if (match q.max_size with | some m => decide (m < e.size) | none => false) then false
  else if (match q.modified_after with | some ts => decide (e.mtime < ts) | none => false) then false
  else if (match q.modified_before with | some ts => decide (ts < e.mtime) | none => false) then false
  else true

/-- `PythonBackend.search` (src/nl_find/core/backends.py:58-79): enumerate the
tree (`rglob("*")`, or `glob("*")` restricted to depth one when the query is
not recursive) and yield the paths accepted by `_matches_query`. -/
def python_search (fs : FileSystem) (q : SearchQuery) : List (List String) :=
  ((if q.recursive then fs.entries
    else fs.entries.filter (fun e => decide (e.parts.length = 1))).filter
      (fun e => python_matches_query e q)).map FSEntry.parts

/-- `SearchExecutor._matches_query` of the legacy executor
(src/src/core/executor.py:93-149): the same checks as the universal filter,
content-pattern check included. -/
def src_matches_query (e : FSEntry) (q : SearchQuery) : Bool :=
  if e.isDir then false
  else if !q.include_hidden && startsWithDot (entryName e) then false
  else if optStrTruthy q.pattern && !globMatch (q.pattern.getD "").data (entryName e).data then false
  else if !q.extensions.isEmpty &&
      !((q.extensions.map (fun ext => lowerL ext.data)).contains (lowerL (pySuffix (entryName e).data))) then false
  else if (match q.min_size with | some m => decide (e.size < m) | none => false) then false
  else if (match q.max_size with | some m => decide (m < e.size) | none => false) then false
  else if (match q.modified_after with | some ts => decide (e.mtime < ts) | none => false) then false
  else if (match q.modified_before with | some ts => decide (ts < e.mtime) | none => false) then false
  else if optStrTruthy q.content_pattern && !contentMatches e (q.content_pattern.getD "") then false
  else true

/-- Stable insertion of an element into a list: the element goes in front of
the first position where `le` holds. -/
def insertLe {α : Type} (le : α → α → Bool) (a : α) : List α → List α
  | [] => [a]
  | b :: l => if le a b then a :: b :: l else b :: insertLe le a l

/-- Stable sort by a boolean `le`.  Python's built-in `sorted` is the unique
stable sort for a total preorder, so this insertion sort is observationally
the sort used by `SearchExecutor._sort_files`. -/
def stableSort {α : Type} (le : α → α → Bool) : List α → List α
  | [] => []
  | a :: l => insertLe le a (stableSort le l)

/-- The sort key comparison from `SearchExecutor._sort_files`
(src/nl_find/core/executor.py:170-192): lowercased name, size, or one of the
two timestamps.  `key_map.get` cannot miss because `SortField` is closed. -/
def fileKeyLe (sb : SortField) (a b : FileInfo) : Bool :=
  match sb with
  | .name => lexLe (lowerL a.name.data) (lowerL b.name.data)
  | .size => decide (a.size ≤ b.size)
  | .modified => decide (a.modified ≤ b.modified)
  | .created => decide (a.created ≤ b.created)

/-- Comparison actually fed to the sort: `reverse=True` (descending) flips
the key comparison while remaining stable, exactly as Python's
`sorted(..., reverse=True)` does. -/
def fileLe (params : SearchParams) (a b : FileInfo) : Bool :=
  if params.sort_order = SortOrder.desc then fileKeyLe params.sort_by b a
  else fileKeyLe params.sort_by a b

/-- `SearchExecutor._sort_files`. -/
def sortFiles (files : List FileInfo) (params : SearchParams) : List FileInfo :=
  stableSort (fileLe params) files

/-- Python list slice `files[:k]` for an `int` bound: a nonnegative bound
keeps the first `k` elements, a negative one drops the last `-k`. -/
def pyTakeSlice {α : Type} (l : List α) (k : Int) : List α :=
  if 0 ≤ k then l.take k.toNat else l.take (l.length - (-k).toNat)

/-- The collection loop of `SearchExecutor.execute`
(src/nl_find/core/executor.py:66-75): for each backend candidate that passes
the universal filter, materialize a `FileInfo`; a candidate whose metadata
cannot be read is skipped. -/
def collect_files (fs : FileSystem) (cands : List (List String)) (q : SearchQuery) : List FileInfo :=
  cands.filterMap (fun p =>
    match lookup fs p with
    | some e => if post_filter_entry e q then some (infoOfEntry fs.root e) else none
    | none => none)

/-- `SearchExecutor.execute` (src/nl_find/core/executor.py:39-90) run over the
candidate stream produced by the selected backend: validate the path, filter
and materialize the candidates, sort, then truncate to `limit`; `t` is the
elapsed wall-clock time recorded in the result. -/
def execute (fs : FileSystem) (cands : List (List String)) (params : SearchParams)
    (t : Int) : Except PathError SearchResult :=
  if fs.pathExists = false then .error .notExists
  else if fs.pathIsDir = false then .error .notDir
  else
    let files := collect_files fs cands params.query
    let sortedFiles := sortFiles files params
    let limited := pyTakeSlice sortedFiles params.limit
    .ok ⟨params.query, limited, limited.length, t⟩

/-- The legacy `SearchExecutor._search_files` (src/src/core/executor.py:67-91):
enumerate the tree and materialize every path accepted by `_matches_query`. -/
def src_search_files (fs : FileSystem) (q : SearchQuery) : List FileInfo :=
  ((if q.recursive then fs.entries
    else fs.entries.filter (fun e => decide (e.parts.length = 1))).filter
      (fun e => src_matches_query e q)).map (infoOfEntry fs.root)

/-- The collection loop of the legacy executor (src/src/core/executor.py:48-52):
append matches one by one and break as soon as `len(files) >= limit`; note the
break happens after the append, so even a nonpositive limit keeps one match. -/
def srcCollectAux (limit : Int) (n : Int) : List FileInfo → List FileInfo
  | [] => []
  | f :: rest => if limit ≤ n + 1 then [f] else f :: srcCollectAux limit (n + 1) rest

/-- The legacy `SearchExecutor.execute` (src/src/core/executor.py:21-65):
validate the path, collect matches up to `limit`, then sort what was
collected. -/
def src_execute (fs : FileSystem) (params : SearchParams) (t : Int) :
    Except PathError SearchResult :=
  if fs.pathExists = false then .error .notExists
  else if fs.pathIsDir = false then .error .notDir
  else
    let collected := srcCollectAux params.limit 0 (src_search_files fs params.query)
    let sortedFiles := sortFiles collected params
    .ok ⟨params.query, sortedFiles, sortedFiles.length, t⟩

/-- The `size_k` computed for a minimum size in `FindBackend._build_command`
(src/nl_find/core/backends.py:308-310): `query.min_size // 1024 or 1`. -/
def find_size_k_min (m : Nat) : Nat := if m / 1024 = 0 then 1 else m / 1024

/-- File size rounded up to 1024-byte units, as `find -size Nk` measures it. -/
def kUnitsUp (n : Nat) : Nat := (n + 1023) / 1024

/-- The `-o`-joined `-name *ext` arguments for the extension list
(src/nl_find/core/backends.py:298-305). -/
def joinExtArgs : List String → List String
  | [] => []
  | [e] => ["-name", "*" ++ e]
  | e :: rest => ["-name", "*" ++ e] ++ ["-o"] ++ joinExtArgs rest

/-- `FindBackend._build_command` (src/nl_find/core/backends.py:276-322):
the argument list of the spawned `find` process.  `now` models
`datetime.now()` used for the `-mtime` translation. -/
def find_build_command (pathStr : String) (q : SearchQuery) (now : Int) : List String :=
  let cmd := ["find", pathStr]
  let cmd := if !q.recursive then cmd ++ ["-maxdepth", "1"] else cmd
  let cmd := cmd ++ ["-type", "f"]
  let cmd := if optStrTruthy q.pattern then cmd ++ ["-name", q.pattern.getD ""] else cmd
  let cmd := if !q.extensions.isEmpty then cmd ++ ["("] ++ joinExtArgs q.extensions ++ [")"] else cmd
  let cmd := match q.min_size with
    | some m => cmd ++ ["-size", "+" ++ toString (find_size_k_min m) ++ "k"]
    | none => cmd
  let cmd := match q.max_size with
    | some m => cmd ++ ["-size", "-" ++ toString (m / 1024) ++ "k"]
    | none => cmd
  match q.modified_after with
  | some ts =>
    let days := (now - ts).fdiv 86400
    if 0 ≤ days then cmd ++ ["-mtime", "-" ++ toString days] else cmd
  | none => cmd

/-- Documented semantics of the `find` invocation built by
`FindBackend._build_command`, evaluated on the model tree: `-type f` keeps
regular files, `-maxdepth 1` keeps depth-one entries, `-name` is an anchored
glob on the base name, the extension arguments accept any `*ext` match,
`-size +Nk` keeps files whose size rounded up to 1 KiB units exceeds `N`,
`-size -Nk` keeps those strictly below `N` units, and `-mtime -d` keeps files
modified less than `d` whole days ago.  The backend then parses the printed
paths back into candidates (src/nl_find/core/backends.py:247-274). -/
def find_tool_candidates (fs : FileSystem) (q : SearchQuery) (now : Int) : List (List String) :=
  ((if q.recursive then fs.entries
    else fs.entries.filter (fun e => decide (e.parts.length ≤ 1))).filter
      (fun e =>
        !e.isDir &&
        (!optStrTruthy q.pattern || globMatch (q.pattern.getD "").data (entryName e).data) &&
        (q.extensions.isEmpty ||
          q.extensions.any (fun ext => globMatch ('*' :: ext.data) (entryName e).data)) &&
        (match q.min_size with
         | some m => decide (find_size_k_min m < kUnitsUp e.size)
         | none => true) &&
        (match q.max_size with
         | some m => decide (kUnitsUp e.size < m / 1024)
         | none => true) &&
        (match q.modified_after with
         | some ts =>
           if 0 ≤ (now - ts).fdiv 86400 then
             decide ((now - e.mtime).fdiv 86400 < (now - ts).fdiv 86400)
           else true
         | none => true))).map FSEntry.parts

/-- Outcome of the `subprocess.run` call made by an external-process backend:
it completed (with captured stdout and a return code), raised
`TimeoutExpired`, or raised another `SubprocessError`. -/
inductive ProcOutcome where
  | completed (stdout : String) (returncode : Int)
  | timedOut
  | subprocessFailed
deriving DecidableEq

/-- What a backend `search` call produced: the yielded candidate strings and
whether a failure was logged. -/
structure BackendRun where
  yielded : List String
  logged : Bool
deriving DecidableEq

/-- stdout parsing shared by the external backends:
`result.stdout.strip().split("\n")`, skipping empty lines. -/
def split_stdout_lines (stdout : String) : List String :=
  ((splitNl (pyStrip stdout.data)).filter (fun l => !l.isEmpty)).map (fun l => ⟨l⟩)

/-- `FdBackend.search` (src/nl_find/core/backends.py:162-190): on completion
every nonblank stdout line is joined to the query path and yielded, whatever
the return code; on `TimeoutExpired` or `SubprocessError` the generator logs
and yields nothing. -/
def fd_search_run (rootStr : String) (outcome : ProcOutcome) : BackendRun :=
  match outcome with
  | .completed out _ => ⟨(split_stdout_lines out).map (fun line => rootStr ++ "/" ++ line), false⟩
  | .timedOut => ⟨[], true⟩
  | .subprocessFailed => ⟨[], true⟩

/-- `FindBackend.search` (src/nl_find/core/backends.py:247-274): on completion
every nonblank stdout line is yielded as a path, whatever the return code; on
`TimeoutExpired` or `SubprocessError` the generator logs and yields nothing. -/
def find_search_run (outcome : ProcOutcome) : BackendRun :=
  match outcome with
  | .completed out _ => ⟨split_stdout_lines out, false⟩
  | .timedOut => ⟨[], true⟩
  | .subprocessFailed => ⟨[], true⟩

/-- The four backend classes registered in `BACKENDS`
(src/nl_find/core/backends.py:453-458). -/
inductive BackendKind where
  | python
  | fd
  | find
  | everything
deriving DecidableEq

/-- Which external tools the current machine offers: `fd` on the PATH, `find`
on a non-Windows system, the Everything CLI on Windows.  The in-process
walker needs no tool. -/
structure ToolEnv where
  fdOnPath : Bool
  findOnUnix : Bool
  everythingOnWindows : Bool
deriving DecidableEq

/-- The `is_available` classmethods: `PythonBackend.is_available` returns
`True` unconditionally (src/nl_find/core/backends.py:125-128); the others
probe the environment. -/
def is_available (env : ToolEnv) : BackendKind → Bool
  | .python => true
  | .fd => env.fdOnPath
  | .find => env.findOnUnix
  | .everything => env.everythingOnWindows

/-- The `BACKENDS` registry (src/nl_find/core/backends.py:453-458). -/
def BACKENDS : List (String × BackendKind) :=
  [("python", .python), ("fd", .fd), ("find", .find), ("everything", .everything)]

/-- The fixed priority order of `get_available_backends`
(src/nl_find/core/backends.py:461-468): fastest first, in-process walker last. -/
def backend_priority : List BackendKind :=
  [.fd, .everything, .find, .python]

/-- `get_available_backends` (src/nl_find/core/backends.py:461-468). -/
def get_available_backends (env : ToolEnv) : List BackendKind :=
  backend_priority.filter (is_available env)

/-- The automatic-selection tail of `select_backend`
(src/nl_find/core/backends.py:487-494): first available backend in priority
order, with `PythonBackend` as the unreachable last resort. -/
def auto_select (env : ToolEnv) : BackendKind :=
  match get_available_backends env with
  | [] => .python
  | b :: _ => b

/-- `select_backend` (src/nl_find/core/backends.py:471-494): an explicit
preference naming an available registered backend wins; otherwise (unknown
name, `"auto"`, or an unavailable explicit choice) fall through to automatic
selection. -/
def select_backend (env : ToolEnv) (preference : String) : BackendKind :=
  match (if preference ≠ "auto" then BACKENDS.lookup preference else none) with
  | some bk => if is_available env bk then bk else auto_select env
  | none => auto_select env

/-- Modelled from the spec: `nl_find/core/models.py` is not present under
`src/` (only the legacy `src/src/core/models.py` is), and the spec states
that `SearchQuery` accepts both `"py"`- and `".py"`-style extension strings
and normalizes each extension internally to include the leading separator.
This function is that normalization, applied at query construction. -/
def normalizeExt (e : String) : String :=
  if startsWithDot e then e else "." ++ e

/-- Modelled from the spec: normalization of the whole extension list at
`SearchQuery` construction. -/
def normalizeExtensions (exts : List String) : List String :=
  exts.map normalizeExt

/-- Totality of the lexicographic comparison. -/
theorem lexLe_total : ∀ (a b : List Char), lexLe a b = true ∨ lexLe b a = true
  | [], _ => Or.inl rfl
  | _ :: _, [] => Or.inr rfl
  | x :: as, y :: bs => by
    rcases lt_trichotomy x y with hxy | hxy | hxy
    · exact Or.inl (by simp [lexLe, hxy])
    · subst hxy
      rcases lexLe_total as bs with h | h
      · exact Or.inl (by simp [lexLe, lt_irrefl, h])
      · exact Or.inr (by simp [lexLe, lt_irrefl, h])
    · exact Or.inr (by simp [lexLe, hxy])

/-- Transitivity of the lexicographic comparison. -/
theorem lexLe_trans : ∀ {a b c : List Char},
    lexLe a b = true → lexLe b c = true → lexLe a c = true
  | [], _, _, _, _ => rfl
  | _ :: _, [], _, h, _ => by simp [lexLe] at h
  | _ :: _, _ :: _, [], _, h => by simp [lexLe] at h
  | x :: as, y :: bs, z :: cs, h1, h2 => by
    simp only [lexLe] at h1 h2 ⊢
    by_cases hxy : x < y
    · by_cases hyz : y < z
      · simp [lt_trans hxy hyz]
      · by_cases hzy : z < y
        · rw [if_neg hyz, if_pos hzy] at h2
          exact absurd h2 (by simp)
        · have hyzeq : y = z := le_antisymm (not_lt.mp hzy) (not_lt.mp hyz)
          subst hyzeq
          simp [hxy]
    · by_cases hyx : y < x
      · rw [if_neg hxy, if_pos hyx] at h1
        exact absurd h1 (by simp)
      · have hxyeq : x = y := le_antisymm (not_lt.mp hyx) (not_lt.mp hxy)
        subst hxyeq
        rw [if_neg hxy, if_neg hyx] at h1
        by_cases hyz : x < z
        · simp [hyz]
        · by_cases hzy : z < x
          · rw [if_neg hyz, if_pos hzy] at h2
            exact absurd h2 (by simp)
          · rw [if_neg hyz, if_neg hzy] at h2
            simp [hyz, hzy, lexLe_trans h1 h2]

/-- Antisymmetry of the lexicographic comparison. -/
theorem lexLe_antisymm : ∀ {a b : List Char},
    lexLe a b = true → lexLe b a = true → a = b
  | [], [], _, _ => rfl
  | [], _ :: _, _, h => by simp [lexLe] at h
  | _ :: _, [], h, _ => by simp [lexLe] at h
  | x :: as, y :: bs, h1, h2 => by
    simp only [lexLe] at h1 h2
    by_cases hxy : x < y
    · rw [if_neg (lt_asymm hxy), if_pos hxy] at h2
      exact absurd h2 (by simp)
    · by_cases hyx : y < x
      · rw [if_neg hxy, if_pos hyx] at h1
        exact absurd h1 (by simp)
      · have hxyeq : x = y := le_antisymm (not_lt.mp hyx) (not_lt.mp hxy)
        subst hxyeq
        rw [if_neg hxy, if_neg hxy] at h1 h2
        rw [lexLe_antisymm h1 h2]

/-- The sort key comparison is total for every sort field. -/
theorem fileKeyLe_total (sb : SortField) (a b : FileInfo) :
    fileKeyLe sb a b = true ∨ fileKeyLe sb b a = true := by
  cases sb
  · exact lexLe_total _ _
  · rcases Nat.le_total a.size b.size with h | h
    · exact Or.inl (by simp [fileKeyLe, h])
    · exact Or.inr (by simp [fileKeyLe, h])
  · rcases Int.le_total a.modified b.modified with h | h
    · exact Or.inl (by simp [fileKeyLe, h])
    · exact Or.inr (by simp [fileKeyLe, h])
  · rcases Int.le_total a.created b.created with h | h
    · exact Or.inl (by simp [fileKeyLe, h])
    · exact Or.inr (by simp [fileKeyLe, h])

/-- The sort key comparison is transitive for every sort field. -/
theorem fileKeyLe_trans {sb : SortField} {a b c : FileInfo}
    (h1 : fileKeyLe sb a b = true) (h2 : fileKeyLe sb b c = true) :
    fileKeyLe sb a c = true := by
  cases sb
  · exact lexLe_trans h1 h2
  · simp only [fileKeyLe, decide_eq_true_eq] at h1 h2 ⊢
    omega
  · simp only [fileKeyLe, decide_eq_true_eq] at h1 h2 ⊢
    omega
  · simp only [fileKeyLe, decide_eq_true_eq] at h1 h2 ⊢
    omega

/-- The full comparison (with direction applied) is total. -/
theorem fileLe_total (params : SearchParams) (a b : FileInfo) :
    fileLe params a b = true ∨ fileLe params b a = true := by
  unfold fileLe
  by_cases h : params.sort_order = SortOrder.desc
  · simp only [if_pos h]
    exact (fileKeyLe_total params.sort_by b a).symm.symm
  · simp only [if_neg h]
    exact fileKeyLe_total params.sort_by a b

/-- The full comparison (with direction applied) is transitive. -/
theorem fileLe_trans {params : SearchParams} {a b c : FileInfo}
    (h1 : fileLe params a b = true) (h2 : fileLe params b c = true) :
    fileLe params a c = true := by
  unfold fileLe at h1 h2 ⊢
  by_cases h : params.sort_order = SortOrder.desc
  · rw [if_pos h] at h1 h2 ⊢
    exact fileKeyLe_trans h2 h1
  · rw [if_neg h] at h1 h2 ⊢
    exact fileKeyLe_trans h1 h2

/-- Inserting permutes to consing. -/
theorem insertLe_perm {α : Type} (le : α → α → Bool) (a : α) :
    ∀ (l : List α), (insertLe le a l).Perm (a :: l)
  | [] => List.Perm.refl _
  | b :: l => by
    unfold insertLe
    by_cases h : le a b = true
    · rw [if_pos h]
    · rw [if_neg h]
      exact ((insertLe_perm le a l).cons b).trans (List.Perm.swap a b l)

/-- The stable sort permutes its input. -/
theorem stableSort_perm {α : Type} (le : α → α → Bool) :
    ∀ (l : List α), (stableSort le l).Perm l
  | [] => List.Perm.refl _
  | a :: l => (insertLe_perm le a (stableSort le l)).trans ((stableSort_perm le l).cons a)

/-- Inserting into a `le`-ordered list keeps it ordered. -/
theorem insertLe_pairwise {α : Type} {le : α → α → Bool}
    (htot : ∀ x y, le x y = true ∨ le y x = true)
    (htrans : ∀ {x y z}, le x y = true → le y z = true → le x z = true)
    (a : α) :
    ∀ {l : List α}, l.Pairwise (fun x y => le x y = true) →
      (insertLe le a l).Pairwise (fun x y => le x y = true)
  | [], _ => by simp [insertLe]
  | b :: l, h => by
    rcases List.pairwise_cons.mp h with ⟨hb, hl⟩
    unfold insertLe
    by_cases hab : le a b = true
    · rw [if_pos hab]
      refine List.pairwise_cons.mpr ⟨?_, h⟩
      intro x hx
      rcases List.mem_cons.mp hx with hxb | hxl
      · subst hxb
        exact hab
      · exact htrans hab (hb x hxl)
    · rw [if_neg hab]
      refine List.pairwise_cons.mpr ⟨?_, insertLe_pairwise htot htrans a hl⟩
      intro x hx
      rcases List.mem_cons.mp ((insertLe_perm le a l).mem_iff.mp hx) with hxa | hxl
      · subst hxa
        rcases htot x b with h1 | h1
        · exact absurd h1 hab
        · exact h1
      · exact hb x hxl

/-- The stable sort produces a `le`-ordered list. -/
theorem stableSort_pairwise {α : Type} {le : α → α → Bool}
    (htot : ∀ x y, le x y = true ∨ le y x = true)
    (htrans : ∀ {x y z}, le x y = true → le y z = true → le x z = true) :
    ∀ (l : List α), (stableSort le l).Pairwise (fun x y => le x y = true)
  | [] => List.Pairwise.nil
  | a :: l => insertLe_pairwise htot htrans a (stableSort_pairwise htot htrans l)

/-- Two ordered lists that are permutations of one another coincide, provided
the comparison is antisymmetric on the elements actually present. -/
theorem sorted_unique {α : Type} {le : α → α → Bool} :
    ∀ {l1 l2 : List α}, l1.Perm l2 →
      l1.Pairwise (fun x y => le x y = true) →
      l2.Pairwise (fun x y => le x y = true) →
      (∀ x y, x ∈ l1 → y ∈ l1 → le x y = true → le y x = true → x = y) →
      l1 = l2
  | [], l2, hp, _, _, _ => (hp.nil_eq).symm ▸ rfl
  | a :: t1, [], hp, _, _, _ => absurd hp.symm (by simp [List.Perm])
  | a :: t1, b :: t2, hp, h1, h2, hanti => by
    rcases List.pairwise_cons.mp h1 with ⟨ha, ht1⟩
    rcases List.pairwise_cons.mp h2 with ⟨hb, ht2⟩
    have hab : a = b := by
      by_cases heq : a = b
      · exact heq
      · have hamem : a ∈ b :: t2 := hp.mem_iff.mp (List.mem_cons_self a t1)
        have hat2 : a ∈ t2 := by
          rcases List.mem_cons.mp hamem with h | h
          · exact absurd h heq
          · exact h
        have hbmem : b ∈ a :: t1 := hp.mem_iff.mpr (List.mem_cons_self b t2)
        have hbt1 : b ∈ t1 := by
          rcases List.mem_cons.mp hbmem with h | h
          · exact absurd h.symm heq
          · exact h
        exact hanti a b (List.mem_cons_self a t1) (List.mem_cons_of_mem a hbt1)
          (ha b hbt1) (hb a hat2)
    subst hab
    have hpt : t1.Perm t2 := hp.cons_inv
    have : t1 = t2 := by
      refine sorted_unique hpt ht1 ht2 ?_
      intro x y hx hy
      exact hanti x y (List.mem_cons_of_mem a hx) (List.mem_cons_of_mem a hy)
    rw [this]

/-- A successful metadata lookup returns an entry of the tree whose
components are the queried path. -/
theorem lookup_parts {fs : FileSystem} {p : List String} {e : FSEntry}
    (h : lookup fs p = some e) : e ∈ fs.entries ∧ e.parts = p := by
  refine ⟨List.mem_of_find?_eq_some h, ?_⟩
  have := List.find?_some h
  exact eq_of_beq this

/-- Well-formedness of a tree: no two enumerated entries share a path. -/
def WFTree (fs : FileSystem) : Prop :=
  fs.entries.Pairwise (fun e1 e2 => e1.parts ≠ e2.parts)

/-- In a list of entries with pairwise-distinct paths, a member is found by
its own path. -/
theorem find_self_of_pairwise :
    ∀ {l : List FSEntry}, l.Pairwise (fun e1 e2 => e1.parts ≠ e2.parts) →
      ∀ {e : FSEntry}, e ∈ l → l.find? (fun x => x.parts == e.parts) = some e
  | [], _, _, he => absurd he (List.not_mem_nil _)
  | a :: l, hwf, e, he => by
    rcases List.pairwise_cons.mp hwf with ⟨ha, hl⟩
    rcases List.mem_cons.mp he with hea | hel
    · subst hea
      simp [List.find?]
    · have hne : (a.parts == e.parts) = false := by
        simp [ha e hel]
      simp only [List.find?, hne]
      exact find_self_of_pairwise hl hel

/-- In a well-formed tree, looking up an enumerated entry's path finds that
entry. -/
theorem lookup_self {fs : FileSystem} (hwf : WFTree fs) {e : FSEntry}
    (he : e ∈ fs.entries) : lookup fs e.parts = some e :=
  find_self_of_pairwise hwf he

/-- Membership in the executor's collected file list. -/
theorem mem_collect_files {fs : FileSystem} {cands : List (List String)}
    {q : SearchQuery} {b : FileInfo} :
    b ∈ collect_files fs cands q ↔
      ∃ p, p ∈ cands ∧ ∃ e, lookup fs p = some e ∧ post_filter_entry e q = true ∧
        b = infoOfEntry fs.root e := by
  unfold collect_files
  rw [List.mem_filterMap]
  constructor
  · rintro ⟨p, hp, hf⟩
    refine ⟨p, hp, ?_⟩
    split at hf
    · split at hf
      · rename_i e heq hpf
        exact ⟨e, heq, hpf, (Option.some.inj hf).symm⟩
      · cases hf
    · cases hf
  · rintro ⟨p, hp, e, hl, hpf, hb⟩
    refine ⟨p, hp, ?_⟩
    simp [hl, hpf, hb]

/-- Distinct candidate paths materialize into distinct `FileInfo` records, so
a duplicate-free candidate stream yields a duplicate-free file list. -/
theorem collect_files_nodup {fs : FileSystem} {cands : List (List String)}
    {q : SearchQuery} (h : cands.Nodup) : (collect_files fs cands q).Nodup := by
  unfold collect_files
  refine List.Nodup.filterMap ?_ h
  intro p1 p2 b hb1 hb2
  rw [Option.mem_def] at hb1 hb2
  have key : ∀ {p : List String},
      (match lookup fs p with
        | some e => if post_filter_entry e q = true then some (infoOfEntry fs.root e) else none
        | none => none) = some b →
      ∃ e, lookup fs p = some e ∧ b = infoOfEntry fs.root e := by
    intro p hf
    split at hf
    · split at hf
      · rename_i e heq _
        exact ⟨e, heq, (Option.some.inj hf).symm⟩
      · cases hf
    · cases hf
  rcases key hb1 with ⟨e1, hl1, he1⟩
  rcases key hb2 with ⟨e2, hl2, he2⟩
  have hb12 : infoOfEntry fs.root e1 = infoOfEntry fs.root e2 := by
    rw [← he1, ← he2]
  have hpaths : fs.root ++ e1.parts = fs.root ++ e2.parts :=
    congrArg FileInfo.path hb12
  have heparts : e1.parts = e2.parts := List.append_cancel_left hpaths
  rw [← (lookup_parts hl1).2, ← (lookup_parts hl2).2, heparts]

/-- If every function value on the list is `some` of the mapped value, the
`filterMap` is the `map`. -/
theorem filterMap_eq_map_of_forall {α β : Type} {g : α → Option β} {f : α → β} :
    ∀ {l : List α}, (∀ a ∈ l, g a = some (f a)) → l.filterMap g = l.map f
  | [], _ => rfl
  | a :: l, h => by
    have ha := h a (List.mem_cons_self a l)
    simp only [List.filterMap_cons, ha, List.map_cons]
    rw [filterMap_eq_map_of_forall (fun x hx => h x (List.mem_cons_of_mem a hx))]

/-- On a valid path the executor returns the filtered, sorted, truncated
pipeline result. -/
theorem execute_valid {fs : FileSystem} {cands : List (List String)}
    {params : SearchParams} {t : Int}
    (hex : fs.pathExists = true) (hdir : fs.pathIsDir = true) :
    execute fs cands params t =
      .ok ⟨params.query,
        pyTakeSlice (sortFiles (collect_files fs cands params.query) params) params.limit,
        (pyTakeSlice (sortFiles (collect_files fs cands params.query) params) params.limit).length,
        t⟩ := by
  unfold execute
  rw [hex, hdir]
  simp

/-- A slice bound at least the length keeps the whole list. -/
theorem pyTakeSlice_of_le {α : Type} {l : List α} {k : Int}
    (h0 : 0 ≤ k) (h : (l.length : Int) ≤ k) : pyTakeSlice l k = l := by
  unfold pyTakeSlice
  rw [if_pos h0]
  refine List.take_of_length_le ?_
  omega

/-- Sorting preserves length. -/
theorem sortFiles_length (files : List FileInfo) (params : SearchParams) :
    (sortFiles files params).length = files.length :=
  (stableSort_perm (fileLe params) files).length_eq

/-- A query with every optional filter unset (the `SearchQuery` defaults),
with the given `include_hidden` flag and recursive traversal. -/
def noFilterQuery (b : Bool) : SearchQuery :=
  ⟨none, [], none, none, none, none, none, b, true⟩

/-- A surviving candidate satisfies an inclusive lower size bound. -/
theorem post_filter_entry_size_bounds {e : FSEntry} {q : SearchQuery} {m M : Nat}
    (hmin : q.min_size = some m) (hmax : q.max_size = some M)
    (h : post_filter_entry e q = true) : m ≤ e.size ∧ e.size ≤ M := by
  unfold post_filter_entry at h
  rw [hmin, hmax] at h
  repeat' split at h
  all_goals simp_all

/-- Claim C3: `execute` fails with `InvalidPathError` exactly when the base
directory does not exist or is not a directory, and on an invalid path the
outcome is independent of the tree contents, the backend's candidate stream
and the clock — no candidate work contributes to it. -/
theorem C3_path_validation (fs : FileSystem) (cands : List (List String))
    (params : SearchParams) (t : Int) :
    ((∃ err, execute fs cands params t = Except.error err) ↔
      ¬(fs.pathExists = true ∧ fs.pathIsDir = true))
    ∧ (∀ (gs : FileSystem) (cands2 : List (List String)) (t2 : Int),
        ¬(fs.pathExists = true ∧ fs.pathIsDir = true) →
        gs.pathExists = fs.pathExists → gs.pathIsDir = fs.pathIsDir →
        execute gs cands2 params t2 = execute fs cands params t) := by
  constructor
  · cases hE : fs.pathExists
    · simp [execute, hE]
    · cases hD : fs.pathIsDir
      · simp [execute, hE, hD]
      · simp [execute, hE, hD]
  · intro gs cands2 t2 hinv hge hgd
    cases hE : fs.pathExists
    · have h1 : gs.pathExists = false := by rw [hge, hE]
      simp [execute, hE, h1]
    · cases hD : fs.pathIsDir
      · have h1 : gs.pathExists = true := by rw [hge, hE]
        have h2 : gs.pathIsDir = false := by rw [hgd, hD]
        simp [execute, hE, hD, h1, h2]
      · exact absurd ⟨hE, hD⟩ hinv

/-- Claim C3 witness: on a nonexistent base directory the error is the same
whatever tree, candidates or clock are supplied. -/
theorem C3_path_validation_witness :
    execute ⟨["s"], false, true, [⟨["x"], false, 1, 0, 0, ""⟩]⟩ [["x"]]
        ⟨noFilterQuery false, .name, .asc, 1000⟩ 9 =
      execute ⟨["r"], false, true, []⟩ [] ⟨noFilterQuery false, .name, .asc, 1000⟩ 0 :=
  (C3_path_validation ⟨["r"], false, true, []⟩ [] ⟨noFilterQuery false, .name, .asc, 1000⟩ 0).2
    ⟨["s"], false, true, [⟨["x"], false, 1, 0, 0, ""⟩]⟩ [["x"]] 9 (by simp) rfl rfl

/-- Claim C8: with both bounds set and `min_size > max_size` no file size can
satisfy the two inclusive comparisons, so on any tree and any candidate
stream the executor succeeds with an empty `files` list; the violated
ordering is not rejected as invalid input. -/
theorem C8_contradictory_bounds (fs : FileSystem) (cands : List (List String))
    (params : SearchParams) (t : Int) (m M : Nat)
    (hex : fs.pathExists = true) (hdir : fs.pathIsDir = true)
    (hmin : params.query.min_size = some m) (hmax : params.query.max_size = some M)
    (hlt : M < m) :
    execute fs cands params t = Except.ok ⟨params.query, [], 0, t⟩ := by
  have hcol : collect_files fs cands params.query = [] := by
    unfold collect_files
    refine List.filterMap_eq_nil_iff.mpr ?_
    intro p hp
    split
    · split
      · rename_i e heq hpf
        rcases post_filter_entry_size_bounds hmin hmax hpf with ⟨h1, h2⟩
        omega
      · rfl
    · rfl
  rw [execute_valid hex hdir, hcol]
  simp [sortFiles, stableSort, pyTakeSlice]

/-- Claim C8 witness: `min_size = 10 > 5 = max_size` returns an empty result
on a tree containing a 500-byte file, without an error. -/
theorem C8_contradictory_bounds_witness :
    execute ⟨["r"], true, true, [⟨["a.txt"], false, 500, 0, 0, ""⟩]⟩ [["a.txt"]]
        ⟨⟨none, [], some 10, some 5, none, none, none, false, true⟩, .name, .asc, 1000⟩ 0 =
      Except.ok ⟨⟨none, [], some 10, some 5, none, none, none, false, true⟩, [], 0, 0⟩ :=
  C8_contradictory_bounds _ _ _ _ 10 5 rfl rfl rfl rfl (by decide)

/-- Claim C9: two executions of the same `SearchParams` over the same tree
and candidate stream agree on the query, the file list and the total count;
only the recorded wall-clock time distinguishes them. -/
theorem C9_idempotence (fs : FileSystem) (cands : List (List String))
    (params : SearchParams) (t1 t2 : Int) (r1 r2 : SearchResult)
    (h1 : execute fs cands params t1 = Except.ok r1)
    (h2 : execute fs cands params t2 = Except.ok r2) :
    r1.query = r2.query ∧ r1.files = r2.files ∧ r1.total_count = r2.total_count := by
  cases hE : fs.pathExists
  · rw [execute] at h1
    rw [hE] at h1
    simp at h1
  · cases hD : fs.pathIsDir
    · rw [execute] at h1
      rw [hE, hD] at h1
      simp at h1
    · rw [execute_valid hE hD] at h1 h2
      have e1 := Except.ok.inj h1
      have e2 := Except.ok.inj h2
      rw [← e1, ← e2]
      exact ⟨rfl, rfl, rfl⟩

/-- Claim C9 witness: two runs with clock readings 3 and 7 agree on
everything except `search_time`. -/
theorem C9_idempotence_witness :
    (⟨noFilterQuery false,
        [infoOfEntry ["r"] ⟨["a.txt"], false, 500, 10, 5, "hello"⟩], 1, 3⟩ : SearchResult).query =
      (⟨noFilterQuery false,
        [infoOfEntry ["r"] ⟨["a.txt"], false, 500, 10, 5, "hello"⟩], 1, 7⟩ : SearchResult).query ∧
    (⟨noFilterQuery false,
        [infoOfEntry ["r"] ⟨["a.txt"], false, 500, 10, 5, "hello"⟩], 1, 3⟩ : SearchResult).files =
      (⟨noFilterQuery false,
        [infoOfEntry ["r"] ⟨["a.txt"], false, 500, 10, 5, "hello"⟩], 1, 7⟩ : SearchResult).files ∧
    (⟨noFilterQuery false,
        [infoOfEntry ["r"] ⟨["a.txt"], false, 500, 10, 5, "hello"⟩], 1, 3⟩ : SearchResult).total_count =
      (⟨noFilterQuery false,
        [infoOfEntry ["r"] ⟨["a.txt"], false, 500, 10, 5, "hello"⟩], 1, 7⟩ : SearchResult).total_count :=
  C9_idempotence ⟨["r"], true, true, [⟨["a.txt"], false, 500, 10, 5, "hello"⟩]⟩
    [["a.txt"]] ⟨noFilterQuery false, .name, .asc, 1000⟩ 3 7 _ _ rfl rfl

/-- Under the filterless query the universal filter on a regular file reduces
to the hidden gate: accept unless the base name starts with a dot and
`include_hidden` is off. -/
theorem post_filter_entry_noFilter (e : FSEntry) (b : Bool) (hdir : e.isDir = false) :
    post_filter_entry e (noFilterQuery b) = (b || !startsWithDot (entryName e)) := by
  unfold post_filter_entry noFilterQuery
  cases b <;> cases h : startsWithDot (entryName e) <;> simp [h, hdir, optStrTruthy]

/-- The walker's own filter agrees with the hidden gate on the filterless
query. -/
theorem python_matches_query_noFilter (e : FSEntry) (b : Bool) (hdir : e.isDir = false) :
    python_matches_query e (noFilterQuery b) = (b || !startsWithDot (entryName e)) := by
  unfold python_matches_query noFilterQuery
  cases b <;> cases h : startsWithDot (entryName e) <;> simp [h, hdir, optStrTruthy]

/-- Collecting over the paths of entries that are known to be in the tree and
to pass the universal filter materializes exactly those entries. -/
theorem collect_over_parts {fs : FileSystem} (hwf : WFTree fs) {q : SearchQuery}
    {es : List FSEntry} (hmem : ∀ e ∈ es, e ∈ fs.entries)
    (hpost : ∀ e ∈ es, post_filter_entry e q = true) :
    collect_files fs (es.map FSEntry.parts) q = es.map (infoOfEntry fs.root) := by
  unfold collect_files
  rw [List.filterMap_map]
  refine filterMap_eq_map_of_forall ?_
  intro e he
  have hl := lookup_self hwf (hmem e he)
  simp [Function.comp, hl, hpost e he]

/-- With the filterless query on a well-formed tree of regular files, the
executor's collected list is the hidden-gate filter of the tree. -/
theorem collect_python_noFilter {fs : FileSystem} (hwf : WFTree fs)
    (hfiles : ∀ e ∈ fs.entries, e.isDir = false) (b : Bool) :
    collect_files fs (python_search fs (noFilterQuery b)) (noFilterQuery b) =
      (fs.entries.filter (fun e => b || !startsWithDot (entryName e))).map
        (infoOfEntry fs.root) := by
  unfold python_search
  have hfc : fs.entries.filter (fun e => python_matches_query e (noFilterQuery b)) =
      fs.entries.filter (fun e => b || !startsWithDot (entryName e)) := by
    refine List.filter_congr ?_
    intro e he
    exact python_matches_query_noFilter e b (hfiles e he)
  show collect_files fs
      ((fs.entries.filter (fun e => python_matches_query e (noFilterQuery b))).map
        FSEntry.parts) (noFilterQuery b) = _
  rw [hfc]
  refine collect_over_parts hwf ?_ ?_
  · intro e he
    exact (List.mem_filter.mp he).1
  · intro e he
    rcases List.mem_filter.mp he with ⟨hin, hpred⟩
    rw [post_filter_entry_noFilter e b (hfiles e hin)]
    exact hpred

/-- Claim C7: a directory holding exactly one dotfile and N regular files
returns N results with `include_hidden = false` and N+1 with it `true`; and
an existing dotfile candidate is accepted by the universal filter exactly
when `include_hidden` is true. -/
theorem C7_hidden_gating (fs : FileSystem) (N : Nat) (sb : SortField) (so : SortOrder)
    (limit t : Int)
    (hex : fs.pathExists = true) (hdir : fs.pathIsDir = true)
    (hwf : WFTree fs)
    (hfiles : ∀ e ∈ fs.entries, e.isDir = false)
    (hone : fs.entries.countP (fun e => startsWithDot (entryName e)) = 1)
    (hN : fs.entries.length = N + 1)
    (hlim : (N : Int) + 1 ≤ limit) :
    (∀ (b : Bool) (p : List String) (e : FSEntry), lookup fs p = some e →
        startsWithDot (entryName e) = true → post_filter fs p (noFilterQuery b) = b)
    ∧ (∃ r, execute fs (python_search fs (noFilterQuery true))
          ⟨noFilterQuery true, sb, so, limit⟩ t = Except.ok r ∧ r.files.length = N + 1)
    ∧ (∃ r, execute fs (python_search fs (noFilterQuery false))
          ⟨noFilterQuery false, sb, so, limit⟩ t = Except.ok r ∧ r.files.length = N) := by
  have key : ∀ b : Bool,
      ∃ r, execute fs (python_search fs (noFilterQuery b))
          ⟨noFilterQuery b, sb, so, limit⟩ t = Except.ok r ∧
        r.files.length =
          (fs.entries.filter (fun e => b || !startsWithDot (entryName e))).length := by
    intro b
    refine ⟨_, execute_valid hex hdir, ?_⟩
    have hcol := collect_python_noFilter hwf hfiles b
    have hlen1 : (collect_files fs (python_search fs (noFilterQuery b)) (noFilterQuery b)).length =
        (fs.entries.filter (fun e => b || !startsWithDot (entryName e))).length := by
      rw [hcol, List.length_map]
    have hlenle : ((sortFiles (collect_files fs (python_search fs (noFilterQuery b))
        (noFilterQuery b)) ⟨noFilterQuery b, sb, so, limit⟩).length : Int) ≤ limit := by
      rw [sortFiles_length, hlen1]
      have hfle : (fs.entries.filter (fun e => b || !startsWithDot (entryName e))).length ≤
          fs.entries.length := List.length_filter_le _ _
      omega
    have h0 : (0 : Int) ≤ limit := by omega
    rw [pyTakeSlice_of_le h0 hlenle, sortFiles_length, hlen1]
  refine ⟨?_, ?_, ?_⟩
  · intro b p e hl hd
    unfold post_filter
    rw [hl]
    show post_filter_entry e (noFilterQuery b) = b
    rw [post_filter_entry_noFilter e b (hfiles e (lookup_parts hl).1), hd]
    cases b <;> rfl
  · rcases key true with ⟨r, hr, hlen⟩
    refine ⟨r, hr, ?_⟩
    rw [hlen]
    have : fs.entries.filter (fun e => true || !startsWithDot (entryName e)) = fs.entries := by
      refine List.filter_eq_self.mpr ?_
      intro a _
      rfl
    rw [this, hN]
  · rcases key false with ⟨r, hr, hlen⟩
    refine ⟨r, hr, ?_⟩
    rw [hlen]
    have hsplit := List.length_eq_countP_add_countP
      (fun e => startsWithDot (entryName e)) fs.entries
    have hcong : fs.entries.countP (fun a => decide ¬(startsWithDot (entryName a) = true)) =
        fs.entries.countP (fun e => false || !startsWithDot (entryName e)) := by
      refine List.countP_congr ?_
      intro a _
      cases h : startsWithDot (entryName a) <;> simp [h]
    have hflen : (fs.entries.filter (fun e => false || !startsWithDot (entryName e))).length =
        fs.entries.countP (fun e => false || !startsWithDot (entryName e)) :=
      (List.countP_eq_length_filter _ _).symm
    omega

/-- The tree for the C7 witness: one dotfile and one regular file. -/
def fsC7 : FileSystem :=
  ⟨["r"], true, true,
    [⟨[".hidden"], false, 5, 0, 0, ""⟩, ⟨["a.txt"], false, 3, 0, 0, ""⟩]⟩

/-- Claim C7 witness: with one dotfile and one regular file (N = 1) the
executor returns two files when hidden files are included and one when not. -/
theorem C7_hidden_gating_witness :
    (∃ r, execute fsC7 (python_search fsC7 (noFilterQuery true))
        ⟨noFilterQuery true, .name, .asc, 1000⟩ 0 = Except.ok r ∧ r.files.length = 2)
    ∧ (∃ r, execute fsC7 (python_search fsC7 (noFilterQuery false))
        ⟨noFilterQuery false, .name, .asc, 1000⟩ 0 = Except.ok r ∧ r.files.length = 1) := by
  have h := C7_hidden_gating fsC7 1 .name .asc 1000 0 rfl rfl
    (by unfold WFTree fsC7; simp) (by decide) (by decide) rfl (by decide)
  exact ⟨h.2.1, h.2.2⟩

/-- Claim C10: the hidden gate inspects only the candidate's own base name,
so with `include_hidden = false` a file whose name does not start with a dot
but that lies below a dot-directory passes the universal filter and is
returned by a recursive search. -/
theorem C10_dotdir_member (fs : FileSystem) (sb : SortField) (so : SortOrder)
    (limit t : Int) (e : FSEntry)
    (hex : fs.pathExists = true) (hdir : fs.pathIsDir = true) (hwf : WFTree fs)
    (hmem : e ∈ fs.entries) (hfile : e.isDir = false)
    (hname : startsWithDot (entryName e) = false)
    (hdeep : startsWithDot (e.parts.headD "") = true)
    (hlim : (fs.entries.length : Int) ≤ limit) :
    post_filter fs e.parts (noFilterQuery false) = true
    ∧ ∃ r, execute fs (python_search fs (noFilterQuery false))
        ⟨noFilterQuery false, sb, so, limit⟩ t = Except.ok r ∧
        infoOfEntry fs.root e ∈ r.files := by
  have hpost : post_filter_entry e (noFilterQuery false) = true := by
    rw [post_filter_entry_noFilter e false hfile, hname]
    rfl
  constructor
  · unfold post_filter
    rw [lookup_self hwf hmem]
    show post_filter_entry e (noFilterQuery false) = true
    exact hpost
  · refine ⟨_, execute_valid hex hdir, ?_⟩
    have hmatch : python_matches_query e (noFilterQuery false) = true := by
      rw [python_matches_query_noFilter e false hfile, hname]
      rfl
    have hcand : e.parts ∈ python_search fs (noFilterQuery false) := by
      unfold python_search
      exact List.mem_map_of_mem FSEntry.parts
        (List.mem_filter.mpr ⟨hmem, hmatch⟩)
    have hcollect : infoOfEntry fs.root e ∈
        collect_files fs (python_search fs (noFilterQuery false)) (noFilterQuery false) :=
      mem_collect_files.mpr ⟨e.parts, hcand, e, lookup_self hwf hmem, hpost, rfl⟩
    have hsortmem : infoOfEntry fs.root e ∈
        sortFiles (collect_files fs (python_search fs (noFilterQuery false))
          (noFilterQuery false)) ⟨noFilterQuery false, sb, so, limit⟩ :=
      (stableSort_perm _ _).mem_iff.mpr hcollect
    have hclen : (collect_files fs (python_search fs (noFilterQuery false))
        (noFilterQuery false)).length ≤ fs.entries.length := by
      have h1 : (collect_files fs (python_search fs (noFilterQuery false))
          (noFilterQuery false)).length ≤
          (python_search fs (noFilterQuery false)).length :=
        List.length_filterMap_le _ _
      have h2 : (python_search fs (noFilterQuery false)).length ≤ fs.entries.length := by
        unfold python_search
        rw [List.length_map]
        exact List.length_filter_le _ _
      omega
    have hpos : 0 < fs.entries.length := List.length_pos_of_mem hmem
    have hslice : pyTakeSlice (sortFiles (collect_files fs
        (python_search fs (noFilterQuery false)) (noFilterQuery false))
        ⟨noFilterQuery false, sb, so, limit⟩) limit =
        sortFiles (collect_files fs (python_search fs (noFilterQuery false))
          (noFilterQuery false)) ⟨noFilterQuery false, sb, so, limit⟩ := by
      refine pyTakeSlice_of_le (by omega) ?_
      rw [sortFiles_length]
      omega
    rw [hslice]
    exact hsortmem

/-- The tree for the C10 witness: a dot-directory containing a regular file. -/
def fsC10 : FileSystem :=
  ⟨["r"], true, true,
    [⟨[".cache"], true, 0, 0, 0, ""⟩, ⟨[".cache", "data.txt"], false, 7, 0, 0, "x"⟩]⟩

/-- Claim C10 witness: `.cache/data.txt` is returned by a recursive search
with `include_hidden = false`. -/
theorem C10_dotdir_member_witness :
    post_filter fsC10 [".cache", "data.txt"] (noFilterQuery false) = true
    ∧ ∃ r, execute fsC10 (python_search fsC10 (noFilterQuery false))
        ⟨noFilterQuery false, .name, .asc, 1000⟩ 0 = Except.ok r ∧
        infoOfEntry ["r"] ⟨[".cache", "data.txt"], false, 7, 0, 0, "x"⟩ ∈ r.files :=
  C10_dotdir_member fsC10 .name .asc 1000 0 ⟨[".cache", "data.txt"], false, 7, 0, 0, "x"⟩
    rfl rfl (by unfold WFTree fsC10; simp) (by decide) rfl rfl rfl (by decide)

/-- The two-file tree for C2, discovered in the order "b.txt", "a.txt". -/
def fsC2 : FileSystem :=
  ⟨["r"], true, true,
    [⟨["b.txt"], false, 100, 20, 6, ""⟩, ⟨["a.txt"], false, 500, 10, 5, ""⟩]⟩

/-- Sort by name ascending, keep one result. -/
def paramsC2 : SearchParams := ⟨noFilterQuery false, .name, .asc, 1⟩

/-- Claim C2: the legacy executor breaks out of the collection loop as soon
as `limit` matches have been gathered and only then sorts, so with
`limit = 1` on a tree discovered as "b.txt", "a.txt" it returns "b.txt" —
not the first element of the complete sorted survivor list, which is
"a.txt" and which the current executor does return. -/
theorem C2_truncate_before_sort_bug :
    src_execute fsC2 paramsC2 0 =
      Except.ok ⟨noFilterQuery false,
        [infoOfEntry ["r"] ⟨["b.txt"], false, 100, 20, 6, ""⟩], 1, 0⟩
    ∧ pyTakeSlice (sortFiles (src_search_files fsC2 (noFilterQuery false)) paramsC2) 1 =
      [infoOfEntry ["r"] ⟨["a.txt"], false, 500, 10, 5, ""⟩]
    ∧ execute fsC2 (python_search fsC2 (noFilterQuery false)) paramsC2 0 =
      Except.ok ⟨noFilterQuery false,
        [infoOfEntry ["r"] ⟨["a.txt"], false, 500, 10, 5, ""⟩], 1, 0⟩
    ∧ infoOfEntry ["r"] (⟨["b.txt"], false, 100, 20, 6, ""⟩ : FSEntry) ≠
      infoOfEntry ["r"] ⟨["a.txt"], false, 500, 10, 5, ""⟩ :=
  ⟨rfl, rfl, rfl, by decide⟩

/-- Claim C4 counterexample: a `find` run that exits with status 1 after
printing one path (as `find` does when part of the tree is unreadable)
yields that candidate — not an empty sequence — and logs no warning, so a
non-zero exit is not handled as the claim states. -/
theorem C4_nonzero_exit_cex :
    ¬ ((find_search_run (ProcOutcome.completed "/r/a.txt" 1)).yielded = []
       ∧ (find_search_run (ProcOutcome.completed "/r/a.txt" 1)).logged = true) := by
  decide

/-- Claim C4 (amended): on a timeout or a subprocess-execution error both
external-process backends yield an empty candidate sequence and log the
failure, and no fatal error reaches the caller; a completed run, however, is
parsed the same way whatever its exit status. -/
theorem C4_failure_containment (rootStr : String) (outcome : ProcOutcome)
    (h : outcome = ProcOutcome.timedOut ∨ outcome = ProcOutcome.subprocessFailed) :
    (fd_search_run rootStr outcome).yielded = []
    ∧ (fd_search_run rootStr outcome).logged = true
    ∧ (find_search_run outcome).yielded = []
    ∧ (find_search_run outcome).logged = true := by
  rcases h with h | h <;> subst h <;> exact ⟨rfl, rfl, rfl, rfl⟩

/-- Claim C4 witness: the timeout outcome for the fd and find backends. -/
theorem C4_failure_containment_witness :
    (fd_search_run "/r" ProcOutcome.timedOut).yielded = []
    ∧ (fd_search_run "/r" ProcOutcome.timedOut).logged = true
    ∧ (find_search_run ProcOutcome.timedOut).yielded = []
    ∧ (find_search_run ProcOutcome.timedOut).logged = true :=
  C4_failure_containment "/r" ProcOutcome.timedOut (Or.inl rfl)

/-- Claim C5: with the extension normalization the spec prescribes at query
construction, handing the executor a bare extension produces exactly the
same execution — on every tree, candidate stream, sort and limit — as
handing it the dotted form. -/
theorem C5_extension_normalization (fs : FileSystem) (cands : List (List String))
    (q : SearchQuery) (sb : SortField) (so : SortOrder) (limit t : Int) (ext : String)
    (hbare : startsWithDot ext = false) :
    execute fs cands ⟨{ q with extensions := normalizeExtensions [ext] }, sb, so, limit⟩ t =
      execute fs cands ⟨{ q with extensions := normalizeExtensions ["." ++ ext] }, sb, so, limit⟩ t := by
  have hdot : startsWithDot ("." ++ ext) = true := by
    unfold startsWithDot
    rw [String.data_append]
    rfl
  have hlist : normalizeExtensions [ext] = normalizeExtensions ["." ++ ext] := by
    unfold normalizeExtensions normalizeExt
    rw [List.map_singleton, List.map_singleton, hbare, hdot]
    simp
  rw [hlist]

/-- Claim C5 witness: "py" and ".py" give identical executions on a
single-file tree. -/
theorem C5_extension_normalization_witness :
    execute ⟨["r"], true, true, [⟨["t.py"], false, 10, 0, 0, ""⟩]⟩ [["t.py"]]
        ⟨{ noFilterQuery false with extensions := normalizeExtensions ["py"] },
          .name, .asc, 1000⟩ 0 =
      execute ⟨["r"], true, true, [⟨["t.py"], false, 10, 0, 0, ""⟩]⟩ [["t.py"]]
        ⟨{ noFilterQuery false with extensions := normalizeExtensions ["." ++ "py"] },
          .name, .asc, 1000⟩ 0 :=
  C5_extension_normalization ⟨["r"], true, true, [⟨["t.py"], false, 10, 0, 0, ""⟩]⟩
    [["t.py"]] (noFilterQuery false) .name .asc 1000 0 "py" rfl

/-- Claim C6: the selector honors an available explicit preference, falls
back to automatic selection otherwise, the in-process walker is available
unconditionally, and whatever the preference string the selected backend is
available — selection is total and never signals an error. -/
theorem C6_backend_selection (env : ToolEnv) (preference : String) :
    is_available env BackendKind.python = true
    ∧ (∀ bk, BACKENDS.lookup preference = some bk → is_available env bk = true →
        select_backend env preference = bk)
    ∧ (∀ bk, BACKENDS.lookup preference = some bk → is_available env bk = false →
        select_backend env preference = auto_select env)
    ∧ (BACKENDS.lookup preference = none → select_backend env preference = auto_select env)
    ∧ is_available env (select_backend env preference) = true := by
  have hauto : is_available env (auto_select env) = true := by
    rcases env with ⟨f1, f2, f3⟩
    cases f1 <;> cases f2 <;> cases f3 <;> rfl
  have hne : ∀ bk, BACKENDS.lookup preference = some bk → preference ≠ "auto" := by
    intro bk h heq
    subst heq
    rw [show BACKENDS.lookup "auto" = none by rfl] at h
    cases h
  have hsel : ∀ bk, BACKENDS.lookup preference = some bk →
      select_backend env preference =
        if is_available env bk = true then bk else auto_select env := by
    intro bk h
    unfold select_backend
    rw [if_pos (hne bk h), h]
  have hnone : BACKENDS.lookup preference = none →
      select_backend env preference = auto_select env := by
    intro h
    unfold select_backend
    by_cases hpa : preference ≠ "auto"
    · rw [if_pos hpa, h]
    · rw [if_neg hpa]
  refine ⟨rfl, ?_, ?_, hnone, ?_⟩
  · intro bk h hav
    rw [hsel bk h, if_pos hav]
  · intro bk h hav
    rw [hsel bk h, if_neg (by rw [hav]; exact Bool.false_ne_true)]
  · rcases hl : BACKENDS.lookup preference with _ | bk
    · rw [hnone hl]
      exact hauto
    · by_cases hav : is_available env bk = true
      · rw [hsel bk hl, if_pos hav]
        exact hav
      · rw [hsel bk hl, if_neg hav]
        exact hauto

/-- Claim C6 witness: with only `find` installed, asking for "find" returns
the find backend, and the walker's availability probe is true. -/
theorem C6_backend_selection_witness :
    is_available ⟨false, true, false⟩ BackendKind.python = true
    ∧ select_backend ⟨false, true, false⟩ "find" = BackendKind.find :=
  ⟨(C6_backend_selection ⟨false, true, false⟩ "find").1,
    (C6_backend_selection ⟨false, true, false⟩ "find").2.1 BackendKind.find rfl rfl⟩

/-- Resolving the lookup inside the candidate-level universal filter. -/
theorem post_filter_of_lookup {fs : FileSystem} {p : List String} {e : FSEntry}
    {q : SearchQuery} (hl : lookup fs p = some e) :
    post_filter fs p q = post_filter_entry e q := by
  unfold post_filter
  rw [hl]

/-- A path the universal filter accepts is the path of some tree entry. -/
theorem post_filter_mem_entries {fs : FileSystem} {p : List String} {q : SearchQuery}
    (h : post_filter fs p q = true) : ∃ e ∈ fs.entries, e.parts = p := by
  unfold post_filter at h
  split at h
  · cases h
  · rename_i e heq
    exact ⟨e, (lookup_parts heq).1, (lookup_parts heq).2⟩

/-- The one-file tree for the C1 counterexample. -/
def fsC1 : FileSystem := ⟨["r"], true, true, [⟨["a.txt"], false, 500, 0, 0, ""⟩]⟩

/-- The C1 counterexample query: an inclusive upper size bound of 1800
bytes, which the 500-byte file satisfies. -/
def qC1 : SearchQuery := ⟨none, [], none, some 1800, none, none, none, false, true⟩

/-- Claim C1 counterexample: `max_size = 1800` is translated by
`FindBackend._build_command` into `-size -1k`, and `find -size -1k` only
matches files below one whole KiB unit, so the 500-byte file never reaches
the executor from the find backend; the executor over the walker's
candidates returns the file while over the find backend's candidates it
returns an empty list — the backend choice changes the final `files` list. -/
theorem C1_backend_divergence_cex :
    find_build_command "/r" qC1 0 = ["find", "/r", "-type", "f", "-size", "-1k"]
    ∧ find_tool_candidates fsC1 qC1 0 = []
    ∧ execute fsC1 (python_search fsC1 qC1) ⟨qC1, .name, .asc, 1000⟩ 0 =
        Except.ok ⟨qC1, [infoOfEntry ["r"] ⟨["a.txt"], false, 500, 0, 0, ""⟩], 1, 0⟩
    ∧ execute fsC1 (find_tool_candidates fsC1 qC1 0) ⟨qC1, .name, .asc, 1000⟩ 0 =
        Except.ok ⟨qC1, [], 0, 0⟩
    ∧ ([infoOfEntry ["r"] ⟨["a.txt"], false, 500, 0, 0, ""⟩] : List FileInfo) ≠ [] :=
  ⟨rfl, rfl, rfl, rfl, by decide⟩

/-- Claim C1 (amended): because the universal filter re-validates every
candidate, the executor's output is the same over any two duplicate-free
candidate streams that each cover every path the filter accepts, whenever
the requested sort key is tie-free on the surviving files.  Backend choice
is then semantically invisible; the counterexample shows the find backend's
stream can fail the coverage condition, so the unconditional claim does not
hold. -/
theorem C1_backend_equivalence (fs : FileSystem) (params : SearchParams) (t : Int)
    (c1 c2 : List (List String))
    (h1 : c1.Nodup) (h2 : c2.Nodup)
    (hcov1 : ∀ p, post_filter fs p params.query = true → p ∈ c1)
    (hcov2 : ∀ p, post_filter fs p params.query = true → p ∈ c2)
    (hties : ∀ a b : FileInfo, a ∈ collect_files fs c1 params.query →
        b ∈ collect_files fs c1 params.query →
        fileLe params a b = true → fileLe params b a = true → a = b) :
    execute fs c1 params t = execute fs c2 params t := by
  have hmemiff : ∀ b : FileInfo,
      b ∈ collect_files fs c1 params.query ↔ b ∈ collect_files fs c2 params.query := by
    intro b
    rw [mem_collect_files, mem_collect_files]
    constructor
    · rintro ⟨p, _, e, hl, hpf, hb⟩
      refine ⟨p, hcov2 p ?_, e, hl, hpf, hb⟩
      rw [post_filter_of_lookup hl]
      exact hpf
    · rintro ⟨p, _, e, hl, hpf, hb⟩
      refine ⟨p, hcov1 p ?_, e, hl, hpf, hb⟩
      rw [post_filter_of_lookup hl]
      exact hpf
  have hperm : (collect_files fs c1 params.query).Perm (collect_files fs c2 params.query) :=
    (List.perm_ext_iff_of_nodup (collect_files_nodup h1) (collect_files_nodup h2)).mpr hmemiff
  have hsorted : sortFiles (collect_files fs c1 params.query) params =
      sortFiles (collect_files fs c2 params.query) params := by
    refine @sorted_unique FileInfo (fileLe params) _ _ ?_ ?_ ?_ ?_
    · exact ((stableSort_perm _ _).trans hperm).trans (stableSort_perm _ _).symm
    · exact stableSort_pairwise (fileLe_total params) (fun hx hy => fileLe_trans hx hy) _
    · exact stableSort_pairwise (fileLe_total params) (fun hx hy => fileLe_trans hx hy) _
    · intro x y hx hy
      exact hties x y ((stableSort_perm _ _).mem_iff.mp hx)
        ((stableSort_perm _ _).mem_iff.mp hy)
  cases hE : fs.pathExists
  · simp [execute, hE]
  · cases hD : fs.pathIsDir
    · simp [execute, hE, hD]
    · rw [execute_valid hE hD, execute_valid hE hD, hsorted]

/-- Claim C1 witness: over the one-file tree, the stream containing exactly
the matching path and a stream with an extra nonexistent path (in a
different order) produce identical executions. -/
theorem C1_backend_equivalence_witness :
    execute fsC1 [["a.txt"]] ⟨qC1, .name, .asc, 1000⟩ 0 =
      execute fsC1 [["ghost"], ["a.txt"]] ⟨qC1, .name, .asc, 1000⟩ 0 := by
  refine C1_backend_equivalence fsC1 ⟨qC1, .name, .asc, 1000⟩ 0
    [["a.txt"]] [["ghost"], ["a.txt"]] (by decide) (by decide) ?_ ?_ ?_
  · intro p hp
    rcases post_filter_mem_entries hp with ⟨e, he, hparts⟩
    have he2 : e = ⟨["a.txt"], false, 500, 0, 0, ""⟩ := List.mem_singleton.mp he
    rw [← hparts, he2]
    exact List.mem_singleton.mpr rfl
  · intro p hp
    rcases post_filter_mem_entries hp with ⟨e, he, hparts⟩
    have he2 : e = ⟨["a.txt"], false, 500, 0, 0, ""⟩ := List.mem_singleton.mp he
    rw [← hparts, he2]
    exact List.mem_cons_of_mem _ (List.mem_singleton.mpr rfl)
  · intro a b ha hb hab hba
    have hc : collect_files fsC1 [["a.txt"]] qC1 =
        [infoOfEntry ["r"] ⟨["a.txt"], false, 500, 0, 0, ""⟩] := rfl
    rw [hc] at ha hb
    rw [List.mem_singleton.mp ha, List.mem_singleton.mp hb]
